import Mathlib

/-!
Shallow embedding of `src/quadlet.rs` (the resource/compatibility core of the
podlet Quadlet-file generator) and proofs of the specification's claims.

The module under verification is the dispatch/versioning spine: the concrete
resource-kind modules (`container.rs`, `pod.rs`, …), the globals block and the
cli blocks (`Unit`, `Service`, `Install`) are external to it.  Their payloads
are therefore modelled as abstract token types and their contributed behaviour
(rendering, host paths, per-variant downgrade bodies) as explicit function
parameters; everything variant-independent is translated directly from the
source.

Rust's in-place mutation is modelled by explicit state passing: a Rust method
`fn f(&mut self, …) -> Result<(), E>` becomes a Lean function returning the
new value paired with `Option E` (where `some e` is the `Err(e)` case and the
returned value carries whatever mutation happened before the error).
-/

namespace Podlet

/-! ### Payload types from modules outside `quadlet.rs`

Each is an opaque token: `quadlet.rs` never inspects their fields, it only
dispatches on which variant is active. -/

/-- Payload of `Resource::Container` (defined in `container.rs`). -/
structure Container where
  deriving DecidableEq

/-- Payload of `Resource::Pod` (defined in `pod.rs`). -/
structure Pod where
  deriving DecidableEq

/-- Payload of `Resource::Kube` (defined in `kube.rs`). -/
structure Kube where
  deriving DecidableEq

/-- Payload of `Resource::Network` (defined in `network.rs`). -/
structure Network where
  deriving DecidableEq

/-- Payload of `Resource::Volume` (defined in `volume.rs`). -/
structure Volume where
  deriving DecidableEq

/-- Payload of `Resource::Image` (defined in `image.rs`). -/
structure Image where
  deriving DecidableEq

/-- The globals block (defined in `globals.rs`). -/
structure Globals where
  deriving DecidableEq

/-- Systemd unit metadata block (`crate::cli::unit::Unit`). -/
structure UnitBlock where
  deriving DecidableEq

/-- Service override block (`crate::cli::service::Service`). -/
structure Service where
  deriving DecidableEq

/-- Install directives block (`install.rs`). -/
structure Install where
  deriving DecidableEq

/-! ### `PodmanVersion`

`#[derive(PartialOrd, Ord)]` on a Rust enum orders variants by declaration
order; `idx` is that declaration index. -/

/-- Versions of Podman since Quadlet was added, in declaration order. -/
inductive PodmanVersion where
  | V4_4
  | V4_5
  | V4_6
  | V4_7
  | V4_8
  | V5_0
  deriving DecidableEq, Fintype

/-- Declaration index of a `PodmanVersion` variant; the derived Rust `Ord`
compares these. -/
def PodmanVersion.idx : PodmanVersion → Nat
  | .V4_4 => 0
  | .V4_5 => 1
  | .V4_6 => 2
  | .V4_7 => 3
  | .V4_8 => 4
  | .V5_0 => 5

instance : LE PodmanVersion := ⟨fun a b => a.idx ≤ b.idx⟩

instance : LT PodmanVersion := ⟨fun a b => a.idx < b.idx⟩

instance (a b : PodmanVersion) : Decidable (a ≤ b) :=
  inferInstanceAs (Decidable (a.idx ≤ b.idx))

instance (a b : PodmanVersion) : Decidable (a < b) :=
  inferInstanceAs (Decidable (a.idx < b.idx))

/-- Source `PodmanVersion::LATEST`. -/
def PodmanVersion.LATEST : PodmanVersion := .V5_0

/-- Source `impl Default for PodmanVersion` returns `Self::LATEST`. -/
def PodmanVersion.default : PodmanVersion := .LATEST

/-- Source `PodmanVersion::as_str`. -/
def PodmanVersion.as_str : PodmanVersion → String
  | .V4_4 => "4.4"
  | .V4_5 => "4.5"
  | .V4_6 => "4.6"
  | .V4_7 => "4.7"
  | .V4_8 => "4.8"
  | .V5_0 => "5.0"

/-! ### `ResourceKind` and `DowngradeError` -/

/-- Quadlet `Resource` kinds. -/
inductive ResourceKind where
  | Container
  | Pod
  | Kube
  | Network
  | Volume
  | Image
  deriving DecidableEq

/-- Source `ResourceKind::as_str`. -/
def ResourceKind.as_str : ResourceKind → String
  | .Container => "container"
  | .Pod => "pod"
  | .Kube => "kube"
  | .Network => "network"
  | .Volume => "volume"
  | .Image => "image"

/-- Error returned when downgrading a Quadlet file fails. -/
inductive DowngradeError where
  | Option (quadlet_option : String) (value : String) (supported_version : PodmanVersion)
  | Kind (kind : ResourceKind) (supported_version : PodmanVersion)
  deriving DecidableEq

/-! ### `Resource` -/

/-- Tagged union over the concrete resource kinds.  (The Rust `Box` around
`Container` is a representation choice with no observable behaviour and is
dropped.) -/
inductive Resource where
  | Container (c : Container)
  | Pod (p : Pod)
  | Kube (k : Kube)
  | Network (n : Network)
  | Volume (v : Volume)
  | Image (i : Image)
  deriving DecidableEq

/-- Source `impl From<&Resource> for ResourceKind`. -/
def ResourceKind.ofResource : Resource → ResourceKind
  | .Container _ => .Container
  | .Pod _ => .Pod
  | .Kube _ => .Kube
  | .Network _ => .Network
  | .Volume _ => .Volume
  | .Image _ => .Image

/-- Source `Resource::extension`. -/
def Resource.extension (r : Resource) : String :=
  (ResourceKind.ofResource r).as_str

/-- Source `Resource::name_to_service`: the `match` fills `service` with the base
name plus a per-kind suffix, then `push_str(".service")` appends the
extension. -/
def Resource.name_to_service (r : Resource) (name : String) : String :=
  let service : String :=
    match r with
    | .Container _ | .Kube _ => name
    | .Pod _ => name ++ "-pod"
    | .Network _ => name ++ "-network"
    | .Volume _ => name ++ "-volume"
    | .Image _ => name ++ "-image"
  service ++ ".service"

/-- The per-kind filename suffix as the spec's filename contract states it:
`""` for Container/Kube, `-pod`, `-network`, `-volume`, `-image` otherwise. -/
def Resource.serviceSuffix : Resource → String
  | .Container _ | .Kube _ => ""
  | .Pod _ => "-pod"
  | .Network _ => "-network"
  | .Volume _ => "-volume"
  | .Image _ => "-image"

/-! ### `AutoUpdate` -/

/-- Valid values for the `AutoUpdate=` Quadlet option. -/
inductive AutoUpdate where
  | Registry
  | Local
  deriving DecidableEq

/-- Error returned when parsing an invalid `AutoUpdate` variant. -/
structure ParseAutoUpdateError where
  invalid : String
  deriving DecidableEq

/-- Source `AutoUpdate::LABEL_KEY`. -/
def AutoUpdate.LABEL_KEY : String := "io.containers.autoupdate"

/-- Rust `str::strip_prefix`: `some` of the remainder when `p` is a prefix of
`s`, `none` otherwise.  Modelled character-wise on the string's data. -/
def stripPre (s p : String) : Option String :=
  if s.data.take p.data.length = p.data then some ⟨s.data.drop p.data.length⟩ else none

/-- Source `impl FromStr for AutoUpdate`. -/
def AutoUpdate.from_str (s : String) : Except ParseAutoUpdateError AutoUpdate :=
  match s with
  | "registry" => .ok .Registry
  | "local" => .ok .Local
  | s => .error ⟨s⟩

/-- Source `AutoUpdate::as_ref` (`AsRef<str>`). -/
def AutoUpdate.as_ref : AutoUpdate → String
  | .Registry => "registry"
  | .Local => "local"

/-- The body of the `retain` closure in `AutoUpdate::extract_from_labels` up
to its side effect: `label.strip_prefix(LABEL_KEY).and_then(strip_prefix('='))
.and_then(parse().ok())`. -/
def AutoUpdate.labelValue (label : String) : Option AutoUpdate :=
  (stripPre label AutoUpdate.LABEL_KEY).bind fun rest =>
    (stripPre rest "=").bind fun value => (AutoUpdate.from_str value).toOption

/-- Source `Vec::retain` visits elements in order; the closure removes an element and
overwrites the captured `auto_update` exactly when `labelValue` is `some`.
`acc` is the captured `auto_update`; the result pairs its final value with the
retained list. -/
def AutoUpdate.extractGo : List String → Option AutoUpdate → Option AutoUpdate × List String
  | [], acc => (acc, [])
  | label :: rest, acc =>
    match AutoUpdate.labelValue label with
    | some value => AutoUpdate.extractGo rest (some value)
    | none =>
      let r := AutoUpdate.extractGo rest acc
      (r.1, label :: r.2)

/-- Source `AutoUpdate::extract_from_labels`, with the in-place mutation of `labels`
made explicit: returns the extracted value and the mutated list. -/
def AutoUpdate.extract_from_labels (labels : List String) : Option AutoUpdate × List String :=
  AutoUpdate.extractGo labels none

/-! ### Downgrade dispatch

The per-variant downgrade bodies live in the resource-kind modules and
`globals.rs`, outside `quadlet.rs`; they are parameters of the dispatch
functions translated here.  `fn downgrade(&mut self, version) -> Result<(), E>`
becomes `state → version → state × Option E`. -/

/-- The downgrade implementations of the external modules. -/
structure VariantDowngrades where
  container : Container → PodmanVersion → Container × Option DowngradeError
  pod : Pod → PodmanVersion → Pod × Option DowngradeError
  kube : Kube → PodmanVersion → Kube × Option DowngradeError
  network : Network → PodmanVersion → Network × Option DowngradeError
  volume : Volume → PodmanVersion → Volume × Option DowngradeError
  image : Image → PodmanVersion → Image × Option DowngradeError
  globals : Globals → PodmanVersion → Globals × Option DowngradeError

/-- Source `impl Downgrade for Resource`: a `match` delegating to the active
variant. -/
def Resource.downgrade (d : VariantDowngrades) :
    Resource → PodmanVersion → Resource × Option DowngradeError
  | .Container c, version => let r := d.container c version; (.Container r.1, r.2)
  | .Pod p, version => let r := d.pod p version; (.Pod r.1, r.2)
  | .Kube k, version => let r := d.kube k version; (.Kube r.1, r.2)
  | .Network n, version => let r := d.network n version; (.Network r.1, r.2)
  | .Volume v, version => let r := d.volume v version; (.Volume r.1, r.2)
  | .Image i, version => let r := d.image i version; (.Image r.1, r.2)

/-! ### `File` -/

/-- The top-level aggregate. -/
structure File where
  name : String
  unit : Option UnitBlock
  resource : Resource
  globals : Globals
  service : Option Service
  install : Option Install
  deriving DecidableEq

/-- Source `File::service_name`. -/
def File.service_name (f : File) : String :=
  f.resource.name_to_service f.name

/-- Source `impl Downgrade for File`: `self.resource.downgrade(version)?;
self.globals.downgrade(version)` with the `?` early return made explicit. -/
def File.downgrade (d : VariantDowngrades) (f : File) (version : PodmanVersion) :
    File × Option DowngradeError :=
  let r := Resource.downgrade d f.resource version
  match r.2 with
  | some e => ({ f with resource := r.1 }, some e)
  | none =>
    let g := d.globals f.globals version
    ({ f with resource := r.1, globals := g.1 }, g.2)

/-! ### Rendering (`Display`)

The `Display` bodies of the variants and blocks are external; the formatter is
modelled as an output string that `write!`/`writeln!` append to. -/

/-- The `Display` implementations of the external modules. -/
structure Renderers where
  unit : UnitBlock → String
  container : Container → String
  pod : Pod → String
  kube : Kube → String
  network : Network → String
  volume : Volume → String
  image : Image → String
  globals : Globals → String
  service : Service → String
  install : Install → String

/-- Formatter state: the text written so far. -/
abbrev Fmt := String

/-- Source `write!(f, …)`. -/
def Fmt.write (f : Fmt) (s : String) : Fmt := f ++ s

/-- Source `writeln!(f, …)`: the written text plus a trailing newline. -/
def Fmt.writeln (f : Fmt) (s : String) : Fmt := f ++ s ++ "\n"

/-- Source `impl Display for Resource`: delegate to the active variant. -/
def Resource.render (rd : Renderers) : Resource → String
  | .Container c => rd.container c
  | .Pod p => rd.pod p
  | .Kube k => rd.kube k
  | .Network n => rd.network n
  | .Volume v => rd.volume v
  | .Image i => rd.image i

/-- Source `impl Display for File`, write by write:
`writeln!(f, "{unit}")?` if present; `write!(f, "{}{}", resource, globals)?`;
`write!(f, "\n{service}")?` if present; `write!(f, "\n{install}")?` if
present. -/
def File.fmt (rd : Renderers) (file : File) (f : Fmt) : Fmt :=
  let f :=
    match file.unit with
    | some unit => Fmt.writeln f (rd.unit unit)
    | none => f
  let f := Fmt.write f (file.resource.render rd ++ rd.globals file.globals)
  let f :=
    match file.service with
    | some service => Fmt.write f ("\n" ++ rd.service service)
    | none => f
  match file.install with
  | some install => Fmt.write f ("\n" ++ rd.install install)
  | none => f

/-- Display output of a `File`: format into an empty formatter. -/
def File.render (rd : Renderers) (file : File) : String :=
  File.fmt rd file ""

/-! ### Host paths

`host_paths()` returns an iterator of mutable handles; the embedding models an
iterator by the sequence of items it will yield, and `next()` explicitly.
Paths are `PathBuf` values. -/

/-- A host path (`std::path::PathBuf`). -/
abbrev PathBuf := String

/-- The `HostPaths` implementations of the external modules.  `Network` is
absent: `quadlet.rs` uses `iter::empty()` for it directly. -/
structure VariantHostPaths where
  container : Container → List PathBuf
  pod : Pod → List PathBuf
  kube : Kube → List PathBuf
  volume : Volume → List PathBuf
  image : Image → List PathBuf
  globals : Globals → List PathBuf

/-- The sum-type iterator `ResourceIter`, one wrapped iterator per kind. -/
inductive ResourceIter (α : Type) where
  | Container (iter : List α)
  | Pod (iter : List α)
  | Kube (iter : List α)
  | Network (iter : List α)
  | Volume (iter : List α)
  | Image (iter : List α)
  deriving DecidableEq

/-- Source `Iterator::next` for `ResourceIter`: forward to the active variant's
iterator (a list iterator yields its head and advances). -/
def ResourceIter.next {α : Type} : ResourceIter α → Option (α × ResourceIter α)
  | .Container [] => none
  | .Container (x :: xs) => some (x, .Container xs)
  | .Pod [] => none
  | .Pod (x :: xs) => some (x, .Pod xs)
  | .Kube [] => none
  | .Kube (x :: xs) => some (x, .Kube xs)
  | .Network [] => none
  | .Network (x :: xs) => some (x, .Network xs)
  | .Volume [] => none
  | .Volume (x :: xs) => some (x, .Volume xs)
  | .Image [] => none
  | .Image (x :: xs) => some (x, .Image xs)

/-- Source `impl HostPaths for Resource`: wrap the active variant's iterator;
`Network` gets `iter::empty()`. -/
def Resource.host_paths (hp : VariantHostPaths) : Resource → ResourceIter PathBuf
  | .Container c => .Container (hp.container c)
  | .Pod p => .Pod (hp.pod p)
  | .Kube k => .Kube (hp.kube k)
  | .Network _ => .Network []
  | .Volume v => .Volume (hp.volume v)
  | .Image i => .Image (hp.image i)

/-- Source `std::iter::Chain` of a `ResourceIter` and a list iterator, as produced by
`File::host_paths`. -/
structure ChainIter (α : Type) where
  first : ResourceIter α
  second : List α
  deriving DecidableEq

/-- Source `Iterator::next` for the chain: drain `first`, then `second`. -/
def ChainIter.next {α : Type} : ChainIter α → Option (α × ChainIter α)
  | ⟨a, b⟩ =>
    match ResourceIter.next a with
    | some r => some (r.1, ⟨r.2, b⟩)
    | none =>
      match b with
      | [] => none
      | x :: xs => some (x, ⟨a, xs⟩)

/-- Source `impl HostPaths for File`:
`self.resource.host_paths().chain(self.globals.host_paths())`. -/
def File.host_paths (hp : VariantHostPaths) (f : File) : ChainIter PathBuf :=
  ⟨f.resource.host_paths hp, hp.globals f.globals⟩

/-- The items still to be yielded by a `ResourceIter` (the active variant's
wrapped iterator); this is the measure that `next` shrinks. -/
def ResourceIter.items {α : Type} : ResourceIter α → List α
  | .Container it => it
  | .Pod it => it
  | .Kube it => it
  | .Network it => it
  | .Volume it => it
  | .Image it => it

theorem ResourceIter.items_of_next_some {α : Type} {a a' : ResourceIter α} {x : α}
    (h : a.next = some (x, a')) : a.items = x :: a'.items := by
  cases a <;> rename_i it <;> cases it <;> simp [ResourceIter.next] at h <;>
    obtain ⟨rfl, rfl⟩ := h <;> rfl

theorem ResourceIter.items_of_next_none {α : Type} {a : ResourceIter α}
    (h : a.next = none) : a.items = [] := by
  cases a <;> rename_i it <;> cases it <;>
    simp_all [ResourceIter.next, ResourceIter.items]

/-- The sequence a `ResourceIter` yields, by repeated `next`. -/
def ResourceIter.run {α : Type} (a : ResourceIter α) : List α :=
  match h : a.next with
  | none => []
  | some (x, a') => x :: a'.run
termination_by a.items.length
decreasing_by simp [ResourceIter.items_of_next_some h]

theorem ResourceIter.run_of_next_none {α : Type} {a : ResourceIter α}
    (h : a.next = none) : a.run = [] := by
  rw [ResourceIter.run, h]

theorem ResourceIter.run_of_next_some {α : Type} {a a' : ResourceIter α} {x : α}
    (h : a.next = some (x, a')) : a.run = x :: a'.run := by
  rw [ResourceIter.run, h]

theorem ResourceIter.run_eq_items {α : Type} (a : ResourceIter α) : a.run = a.items := by
  induction a using ResourceIter.run.induct with
  | case1 a h => rw [ResourceIter.run_of_next_none h, ResourceIter.items_of_next_none h]
  | case2 a x a' h ih =>
    rw [ResourceIter.run_of_next_some h, ResourceIter.items_of_next_some h, ih]

theorem ChainIter.measure_of_next_some {α : Type} {c c' : ChainIter α} {x : α}
    (h : c.next = some (x, c')) :
    c'.first.items.length + c'.second.length < c.first.items.length + c.second.length := by
  obtain ⟨a, b⟩ := c
  simp only [ChainIter.next] at h
  cases ha : a.next with
  | some r =>
    rw [ha] at h
    obtain ⟨rfl, rfl⟩ : x = r.1 ∧ c' = ⟨r.2, b⟩ := by
      simpa [eq_comm] using h
    have ha' : a.next = some (r.1, r.2) := by rw [ha]
    simp [ResourceIter.items_of_next_some ha']
  | none =>
    rw [ha] at h
    cases b with
    | nil => simp at h
    | cons y ys =>
      obtain ⟨rfl, rfl⟩ : x = y ∧ c' = ⟨a, ys⟩ := by
        simpa [eq_comm] using h
      simp [Nat.lt_succ_self]

/-- The sequence a chained iterator yields, by repeated `next`. -/
def ChainIter.run {α : Type} (c : ChainIter α) : List α :=
  match h : c.next with
  | none => []
  | some (x, c') => x :: c'.run
termination_by c.first.items.length + c.second.length
decreasing_by exact ChainIter.measure_of_next_some h

theorem ChainIter.chain_run_of_next_none {α : Type} {c : ChainIter α}
    (h : c.next = none) : c.run = [] := by
  rw [ChainIter.run, h]

theorem ChainIter.chain_run_of_next_some {α : Type} {c c' : ChainIter α} {x : α}
    (h : c.next = some (x, c')) : c.run = x :: c'.run := by
  rw [ChainIter.run, h]

theorem ChainIter.run_eq_append {α : Type} (c : ChainIter α) :
    c.run = c.first.run ++ c.second := by
  induction c using ChainIter.run.induct with
  | case1 c h =>
    obtain ⟨a, b⟩ := c
    rw [ChainIter.chain_run_of_next_none h]
    simp only [ChainIter.next] at h
    cases ha : a.next with
    | some r => rw [ha] at h; simp at h
    | none =>
      rw [ha] at h
      cases b with
      | nil => rw [ResourceIter.run_of_next_none ha]; rfl
      | cons y ys => simp at h
  | case2 c x c' h ih =>
    obtain ⟨a, b⟩ := c
    rw [ChainIter.chain_run_of_next_some h, ih]
    simp only [ChainIter.next] at h
    cases ha : a.next with
    | some r =>
      rw [ha] at h
      obtain ⟨rfl, rfl⟩ : x = r.1 ∧ c' = ⟨r.2, b⟩ := by simpa [eq_comm] using h
      have ha' : a.next = some (r.1, r.2) := by rw [ha]
      rw [ResourceIter.run_of_next_some ha']
      simp
    | none =>
      rw [ha] at h
      cases b with
      | nil => simp at h
      | cons y ys =>
        obtain ⟨rfl, rfl⟩ : x = y ∧ c' = ⟨a, ys⟩ := by simpa [eq_comm] using h
        rw [ResourceIter.run_of_next_none ha]
        rfl

/-! ### Lemmas about the label-extraction algorithm -/

theorem String.eq_of_data_eq {s t : String} (h : s.data = t.data) : s = t := by
  cases s; cases t; exact congrArg String.mk h

theorem stripPre_eq_some {s p r : String} :
    stripPre s p = some r ↔ s.data = p.data ++ r.data := by
  unfold stripPre
  constructor
  · intro h
    split at h
    · rename_i ht
      obtain rfl : (⟨s.data.drop p.data.length⟩ : String) = r := by simpa using h
      conv_lhs => rw [← List.take_append_drop p.data.length s.data]
      rw [ht]
    · exact absurd h (by simp)
  · intro h
    have ht : s.data.take p.data.length = p.data := by rw [h]; exact List.take_left _ _
    rw [if_pos ht]
    have hd : s.data.drop p.data.length = r.data := by rw [h]; exact List.drop_left _ _
    exact congrArg some (String.eq_of_data_eq hd)

theorem from_str_toOption {s : String} {v : AutoUpdate} :
    (AutoUpdate.from_str s).toOption = some v ↔
      (s = "registry" ∧ v = .Registry) ∨ (s = "local" ∧ v = .Local) := by
  unfold AutoUpdate.from_str
  split <;> simp_all [Except.toOption, eq_comm]

/-- The label entries the `retain` closure consumes are exactly the two literal
strings `io.containers.autoupdate=registry` / `…=local`. -/
theorem labelValue_eq_some {l : String} {v : AutoUpdate} :
    AutoUpdate.labelValue l = some v ↔
      (l = "io.containers.autoupdate=registry" ∧ v = .Registry) ∨
      (l = "io.containers.autoupdate=local" ∧ v = .Local) := by
  constructor
  · intro h
    unfold AutoUpdate.labelValue at h
    rw [Option.bind_eq_some] at h
    obtain ⟨rest, h1, h⟩ := h
    rw [Option.bind_eq_some] at h
    obtain ⟨value, h2, h3⟩ := h
    rw [stripPre_eq_some] at h1 h2
    rw [from_str_toOption] at h3
    have hl : l.data = AutoUpdate.LABEL_KEY.data ++ ("=".data ++ value.data) := by
      rw [h1, h2]
    rcases h3 with ⟨rfl, rfl⟩ | ⟨rfl, rfl⟩
    · exact Or.inl ⟨String.eq_of_data_eq hl, rfl⟩
    · exact Or.inr ⟨String.eq_of_data_eq hl, rfl⟩
  · rintro (⟨rfl, rfl⟩ | ⟨rfl, rfl⟩) <;> decide

theorem labelValue_isSome {l : String} :
    (AutoUpdate.labelValue l).isSome ↔
      l = "io.containers.autoupdate=registry" ∨ l = "io.containers.autoupdate=local" := by
  rw [Option.isSome_iff_exists]
  constructor
  · rintro ⟨v, hv⟩
    rcases labelValue_eq_some.mp hv with ⟨hl, _⟩ | ⟨hl, _⟩
    · exact Or.inl hl
    · exact Or.inr hl
  · rintro (rfl | rfl)
    · exact ⟨.Registry, by decide⟩
    · exact ⟨.Local, by decide⟩

/-- Retained list of `extractGo`: the in-order sublist of entries the closure
does not consume, independently of the accumulator. -/
theorem extractGo_snd (ls : List String) (acc : Option AutoUpdate) :
    (AutoUpdate.extractGo ls acc).2 = ls.filter fun l => (AutoUpdate.labelValue l).isNone := by
  induction ls generalizing acc with
  | nil => rfl
  | cons l ls ih =>
    unfold AutoUpdate.extractGo
    cases hv : AutoUpdate.labelValue l with
    | some v => simp [List.filter_cons, hv, ih]
    | none => simp [List.filter_cons, hv, ih]

/-- Returned value of `extractGo`: the last consumed entry's value, or the
accumulator when nothing is consumed. -/
theorem extractGo_fst (ls : List String) (acc : Option AutoUpdate) :
    (AutoUpdate.extractGo ls acc).1 =
      match (ls.filter fun l => (AutoUpdate.labelValue l).isSome).getLast? with
      | some l => AutoUpdate.labelValue l
      | none => acc := by
  induction ls generalizing acc with
  | nil => rfl
  | cons l ls ih =>
    unfold AutoUpdate.extractGo
    cases hv : AutoUpdate.labelValue l with
    | some v =>
      rw [ih, List.filter_cons_of_pos (by simp [hv])]
      cases hf : ls.filter (fun l => (AutoUpdate.labelValue l).isSome) with
      | nil => simp [hf, hv]
      | cons l' rest =>
        rw [List.getLast?_cons_cons]
        cases hg : (l' :: rest).getLast? with
        | none => exact absurd (List.getLast?_eq_none_iff.mp hg) (by simp)
        | some t => simp [hg]
    | none =>
      rw [List.filter_cons_of_neg (by simp [hv])]
      exact ih acc

theorem mem_of_getLast?_eq_some {l : List String} {a : String}
    (h : l.getLast? = some a) : a ∈ l := by
  obtain ⟨hne, rfl⟩ := List.mem_getLast?_eq_getLast (Option.mem_def.mpr h)
  exact List.getLast_mem hne

/-! ### Sample data used by witnesses and counterexamples -/

/-- Variant downgrade implementations that accept every version unchanged. -/
def idDowngrades : VariantDowngrades where
  container := fun c _ => (c, none)
  pod := fun p _ => (p, none)
  kube := fun k _ => (k, none)
  network := fun n _ => (n, none)
  volume := fun v _ => (v, none)
  image := fun i _ => (i, none)
  globals := fun g _ => (g, none)

/-- Variant downgrade implementations whose pod module rejects every version
with a kind-level error, as the real `pod.rs` does for versions predating pod
support. -/
def podKindDowngrades : VariantDowngrades :=
  { idDowngrades with pod := fun p _ => (p, some (.Kind .Pod .V5_0)) }

/-- A concrete pod file. -/
def samplePodFile : File where
  name := "caddy"
  unit := none
  resource := .Pod {}
  globals := {}
  service := none
  install := none

/-! ### Claims -/

/-- C1: for every `Resource` variant and base name `n`, `name_to_service`
returns `n` unchanged for Container and Kube, `n` plus `-pod` / `-network` /
`-volume` / `-image` for the other kinds, and always appends `.service` last,
so the result is exactly `n ++ suffix ++ ".service"`. -/
theorem name_to_service_spec (r : Resource) (n : String) :
    r.name_to_service n = n ++ r.serviceSuffix ++ ".service" := by
  cases r <;> simp [Resource.name_to_service, Resource.serviceSuffix, String.append_assoc]

/-- C2 counterexample: `Resource::downgrade` performs no kind-level gating of
its own.  With variant downgrade implementations that never fail, downgrading
a `Resource::Pod` to v4.4 — the oldest version, which predates pod support —
returns no error at all, so no `DowngradeError::Kind` is produced at the
`Resource` dispatch level; the claim that the kind check happens there, rather
than inside the variant, is false. -/
theorem resource_downgrade_kind_not_checked_at_dispatch :
    Resource.downgrade idDowngrades (Resource.Pod {}) PodmanVersion.V4_4
      = (Resource.Pod {}, none) := rfl

/-- C2 amended: `Resource::downgrade` delegates entirely to the active
variant's own downgrade logic and returns its result unchanged; any
`DowngradeError::Kind` for a kind that post-dates the requested version
originates inside the variant module and is only propagated here. -/
theorem resource_downgrade_delegates (d : VariantDowngrades) (ver : PodmanVersion) :
    (∀ c, Resource.downgrade d (.Container c) ver
      = (.Container (d.container c ver).1, (d.container c ver).2)) ∧
    (∀ p, Resource.downgrade d (.Pod p) ver = (.Pod (d.pod p ver).1, (d.pod p ver).2)) ∧
    (∀ k, Resource.downgrade d (.Kube k) ver = (.Kube (d.kube k ver).1, (d.kube k ver).2)) ∧
    (∀ n, Resource.downgrade d (.Network n) ver
      = (.Network (d.network n ver).1, (d.network n ver).2)) ∧
    (∀ v, Resource.downgrade d (.Volume v) ver
      = (.Volume (d.volume v ver).1, (d.volume v ver).2)) ∧
    (∀ i, Resource.downgrade d (.Image i) ver
      = (.Image (d.image i ver).1, (d.image i ver).2)) :=
  ⟨fun _ => rfl, fun _ => rfl, fun _ => rfl, fun _ => rfl, fun _ => rfl, fun _ => rfl⟩

/-- C3: `extract_from_labels` removes exactly the entries the closure parses
successfully (retaining, in order, every other entry — in particular every
matching-key entry whose value does not parse), returns the value of the last
removed entry in iteration order, and returns `none` exactly when no entry has
a valid value. -/
theorem extract_from_labels_spec (ls : List String) :
    (AutoUpdate.extract_from_labels ls).1 =
      ((ls.filter fun l => (AutoUpdate.labelValue l).isSome).getLast?).bind
        AutoUpdate.labelValue ∧
    ((AutoUpdate.extract_from_labels ls).1 = none ↔
      ∀ l ∈ ls, AutoUpdate.labelValue l = none) ∧
    (AutoUpdate.extract_from_labels ls).2 =
      ls.filter fun l => (AutoUpdate.labelValue l).isNone := by
  have h1 : (AutoUpdate.extract_from_labels ls).1 =
      ((ls.filter fun l => (AutoUpdate.labelValue l).isSome).getLast?).bind
        AutoUpdate.labelValue := by
    unfold AutoUpdate.extract_from_labels
    rw [extractGo_fst]
    cases hg : (ls.filter fun l => (AutoUpdate.labelValue l).isSome).getLast? <;> simp
  refine ⟨h1, ⟨?_, ?_⟩, ?_⟩
  · intro h l hl
    by_contra hne
    have hsome : (AutoUpdate.labelValue l).isSome := Option.ne_none_iff_isSome.mp hne
    rw [h1] at h
    cases hg : (ls.filter fun l => (AutoUpdate.labelValue l).isSome).getLast? with
    | none =>
      have hnil := List.getLast?_eq_none_iff.mp hg
      have : l ∈ ls.filter fun l => (AutoUpdate.labelValue l).isSome :=
        List.mem_filter.mpr ⟨hl, hsome⟩
      rw [hnil] at this
      exact absurd this (List.not_mem_nil l)
    | some l' =>
      rw [hg] at h
      have hl' : l' ∈ ls.filter fun l => (AutoUpdate.labelValue l).isSome :=
        mem_of_getLast?_eq_some hg
      have : (AutoUpdate.labelValue l').isSome := (List.mem_filter.mp hl').2
      have hv : AutoUpdate.labelValue l' = none := h
      rw [hv] at this
      exact absurd this (by simp)
  · intro h
    have hnil : (ls.filter fun l => (AutoUpdate.labelValue l).isSome) = [] :=
      List.filter_eq_nil_iff.mpr fun l hl => by simp [h l hl]
    rw [h1, hnil]
    rfl
  · unfold AutoUpdate.extract_from_labels
    exact extractGo_snd ls none

/-- C4: when the resource's downgrade fails, `File::downgrade` returns that
error and stops: the globals block is untouched and the partial mutation of
the resource is kept. -/
theorem file_downgrade_stops_at_resource_error
    (d : VariantDowngrades) (f : File) (ver : PodmanVersion)
    (r : Resource) (e : DowngradeError)
    (h : Resource.downgrade d f.resource ver = (r, some e)) :
    File.downgrade d f ver = ({ f with resource := r }, some e) := by
  unfold File.downgrade
  rw [h]

/-- C4 witness: a pod file whose pod module rejects v4.4 with a kind error;
`File::downgrade` propagates that error and leaves the globals alone. -/
theorem file_downgrade_stops_at_resource_error_witness :
    File.downgrade podKindDowngrades samplePodFile PodmanVersion.V4_4
      = ({ samplePodFile with resource := .Pod {} },
          some (.Kind .Pod .V5_0)) :=
  file_downgrade_stops_at_resource_error podKindDowngrades samplePodFile
    PodmanVersion.V4_4 (.Pod {}) (.Kind .Pod .V5_0) rfl

/-- C5: rendering a `File` emits, in fixed order, the unit block (with its
trailing newline) when present, then the resource section immediately followed
by the globals (merged, no separator), then a newline-separated service block
when present, then a newline-separated install block when present. -/
theorem file_render_layout (rd : Renderers) (f : File) :
    File.render rd f =
      (match f.unit with | some u => rd.unit u ++ "\n" | none => "") ++
      (f.resource.render rd ++ rd.globals f.globals) ++
      (match f.service with | some s => "\n" ++ rd.service s | none => "") ++
      (match f.install with | some i => "\n" ++ rd.install i | none => "") := by
  obtain ⟨name, unit, resource, globals, service, install⟩ := f
  cases unit <;> cases service <;> cases install <;>
    simp [File.render, File.fmt, Fmt.write, Fmt.writeln, String.append_assoc]

/-- C6: the ordering on `PodmanVersion` is total, antisymmetric and
transitive, agrees with release chronology
(4.4 < 4.5 < 4.6 < 4.7 < 4.8 < 5.0), and both `LATEST` (the target of the
`latest` alias) and the `Default` value are the maximum element. -/
theorem podman_version_order_spec :
    (∀ a b : PodmanVersion, a ≤ b ∨ b ≤ a) ∧
    (∀ a b : PodmanVersion, a ≤ b → b ≤ a → a = b) ∧
    (∀ a b c : PodmanVersion, a ≤ b → b ≤ c → a ≤ c) ∧
    (PodmanVersion.V4_4 < PodmanVersion.V4_5 ∧ PodmanVersion.V4_5 < PodmanVersion.V4_6 ∧
      PodmanVersion.V4_6 < PodmanVersion.V4_7 ∧ PodmanVersion.V4_7 < PodmanVersion.V4_8 ∧
      PodmanVersion.V4_8 < PodmanVersion.V5_0) ∧
    (∀ v : PodmanVersion, v ≤ PodmanVersion.LATEST) ∧
    PodmanVersion.default = PodmanVersion.LATEST ∧
    (∀ v : PodmanVersion, v ≤ PodmanVersion.default) := by
  refine ⟨by decide, by decide, by decide, by decide, by decide, rfl, by decide⟩

/-- C6 witness: antisymmetry applied at a concrete pair of versions. -/
theorem podman_version_order_spec_witness : PodmanVersion.V4_6 = PodmanVersion.V4_6 :=
  podman_version_order_spec.2.1 PodmanVersion.V4_6 PodmanVersion.V4_6
    (by decide) (by decide)

/-- C7: `File::host_paths` yields exactly the resource's host paths followed
by the globals block's host paths, never interleaved. -/
theorem file_host_paths_concat (hp : VariantHostPaths) (f : File) :
    (File.host_paths hp f).run = (f.resource.host_paths hp).run ++ hp.globals f.globals :=
  ChainIter.run_eq_append _

/-- C8: on the spec's four-label example, `extract_from_labels` returns
`Some(Local)` and leaves exactly the bogus-valued entry and the unrelated
entry. -/
theorem extract_from_labels_example :
    AutoUpdate.extract_from_labels
      ["io.containers.autoupdate=registry", "io.containers.autoupdate=local",
        "io.containers.autoupdate=bogus", "foo=bar"]
      = (some .Local, ["io.containers.autoupdate=bogus", "foo=bar"]) := by decide

/-- C9: `host_paths` on a `Resource::Network` is `iter::empty()`: its first
`next()` call returns nothing and the whole yielded sequence is empty. -/
theorem network_host_paths_empty (hp : VariantHostPaths) (n : Network) :
    (Resource.host_paths hp (.Network n)).next = none ∧
    (Resource.host_paths hp (.Network n)).run = [] :=
  ⟨rfl, ResourceIter.run_of_next_none rfl⟩

/-- C10: `extract_from_labels` removes only entries character-for-character
equal to `io.containers.autoupdate=registry` or `io.containers.autoupdate=local`;
every other entry — keys that merely begin with the label key, the bare key,
malformed values, unrelated labels — is retained unchanged and in its original
relative order. -/
theorem extract_removes_only_exact_labels (ls : List String) :
    (AutoUpdate.extract_from_labels ls).2 =
      ls.filter fun l =>
        !(decide (l = "io.containers.autoupdate=registry") ||
          decide (l = "io.containers.autoupdate=local")) := by
  unfold AutoUpdate.extract_from_labels
  rw [extractGo_snd]
  refine List.filter_congr fun l _ => ?_
  by_cases h1 : l = "io.containers.autoupdate=registry"
  · subst h1; decide
  · by_cases h2 : l = "io.containers.autoupdate=local"
    · subst h2; decide
    · have hn : AutoUpdate.labelValue l = none := by
        by_contra hne
        rcases labelValue_isSome.mp (Option.ne_none_iff_isSome.mp hne) with h | h
        · exact h1 h
        · exact h2 h
      simp [hn, h1, h2]

end Podlet
